import Mathlib

/-!
Shallow embedding of the expense-tracker application (src/app.py) for
specification checking.

Conventions used throughout:

* Python `datetime.date` values are modelled by `Date` (three natural-number
  fields).  Python restricts dates to years 1..9999 and raises `ValueError`
  on out-of-range construction; the validating constructor `pyDate` models
  `datetime.date(y, m, day)` and returns `none` where Python raises.
* Python integer floor division `//` and modulo `%` coincide with Lean's
  `Int` `/` and `%` (`Int.ediv` / `Int.emod`) for positive divisors, which is
  the only way the source uses them.
* SQLite `REAL` amounts are modelled by `ℚ`; the source never does float
  arithmetic on amounts beyond inserting and comparing them.
* Nullable SQL text columns (`description`) are modelled by `Option String`.
* The mutable SQLite database is modelled by the `Store` record; each store
  operation of the source becomes a function `Store → ... → Store` (or
  `Option` of it where the Python code can raise before `conn.commit()`,
  leaving the database unchanged).
-/

/-- A calendar date, mirroring Python `datetime.date` (year, month, day). -/
structure Date where
  year : Nat
  month : Nat
  day : Nat
deriving DecidableEq, Repr

/-- Python `date` comparison: lexicographic on (year, month, day). -/
def dateLe (a b : Date) : Bool :=
  decide (a.year < b.year ∨ (a.year = b.year ∧
    (a.month < b.month ∨ (a.month = b.month ∧ a.day ≤ b.day))))

/-- The month counter used to measure progress of the recurring loop:
each `add_months · 1` step increases it by exactly one. -/
def monthIdx (d : Date) : Nat := 12 * d.year + d.month

/-- The month-length table of the source (`add_months` line) and of Python's
`datetime` module: `[31, 29 if leap else 28, 31, 30, 31, 30, 31, 31, 30, 31, 30, 31]`. -/
def monthDays (leapFeb : Bool) : List Int :=
  [31, if leapFeb then 29 else 28, 31, 30, 31, 30, 31, 31, 30, 31, 30, 31]

/-- The leap-year test as written in `add_months`
(`y % 4 == 0 and (y % 100 != 0 or y % 400 == 0)`); Python's
`calendar.isleap` / `datetime` use the same condition. -/
def isLeap (y : Int) : Bool :=
  y % 4 == 0 && (y % 100 != 0 || y % 400 == 0)

/-- Number of days of month `m` of year `y` (1-based month), as indexed out
of the source's literal list. -/
def daysInMonthP (y m : Int) : Int :=
  (monthDays (isLeap y)).getD (m - 1).toNat 0

/-- Model of the Python constructor `datetime.date(y, m, day)`: it validates
`1 <= y <= 9999`, `1 <= m <= 12`, `1 <= day <= days_in_month(y, m)` and
raises `ValueError` otherwise (modelled as `none`). -/
def pyDate (y m day : Int) : Option Date :=
  if 1 ≤ y ∧ y ≤ 9999 ∧ 1 ≤ m ∧ m ≤ 12 ∧ 1 ≤ day ∧ day ≤ daysInMonthP y m then
    some ⟨y.toNat, m.toNat, day.toNat⟩
  else none

/-- A `Date` that Python's `datetime.date` can represent.  Every date read
from the database (stored as an ISO string produced by `date.isoformat`) and
every `st.date_input` value satisfies this. -/
def Date.Valid (d : Date) : Prop :=
  1 ≤ d.year ∧ d.year ≤ 9999 ∧ 1 ≤ d.month ∧ d.month ≤ 12 ∧
    1 ≤ d.day ∧ (d.day : Int) ≤ daysInMonthP (d.year : Int) (d.month : Int)

instance (d : Date) : Decidable d.Valid := by
  unfold Date.Valid; infer_instance

/-- Source `add_months(d, months)` (src/app.py lines 136-141):

    y = d.year + (d.month - 1 + months) // 12
    m = (d.month - 1 + months) % 12 + 1
    day = min(d.day, [31, 29 if leap(y) else 28, ...][m-1])
    return dt.date(y, m, day)

The final `dt.date(...)` call can raise `ValueError` when `y` leaves the
range 1..9999, hence the `Option` result. -/
def add_months (d : Date) (months : Int) : Option Date :=
  let y : Int := (d.year : Int) + ((d.month : Int) - 1 + months) / 12
  let m : Int := ((d.month : Int) - 1 + months) % 12 + 1
  let day : Int := min (d.day : Int) ((monthDays (isLeap y)).getD (m - 1).toNat 0)
  pyDate y m day

/-- Decimal digit character, as produced by Python's `%d` formatting. -/
def digitChar (n : Nat) : Char := Char.ofNat (48 + n)

/-- Source `month_key(d)` (src/app.py lines 132-133): `f"{d.year:04d}-{d.month:02d}"`.
For the years 1..9999 that `datetime.date` can hold, the `04d` field is
exactly four digits and the `02d` field exactly two. -/
def month_key (d : Date) : String :=
  ⟨[digitChar (d.year / 1000), digitChar (d.year / 100 % 10),
    digitChar (d.year / 10 % 10), digitChar (d.year % 10), '-',
    digitChar (d.month / 10), digitChar (d.month % 10)]⟩

/-- A row of the `transactions` table (the audit-only `created_at` column is
not modelled; no specified behaviour reads it). -/
structure Txn where
  id : Nat
  date : Date
  ttype : String
  category : String
  description : Option String
  amount : ℚ
  account : String
deriving DecidableEq, Repr

/-- A row of the `recurring` table. -/
structure Rule where
  id : Nat
  ttype : String
  category : String
  description : Option String
  amount : ℚ
  interval : String
  next_date : Date
deriving DecidableEq, Repr

/-- A row of the `budgets` table. -/
structure Budget where
  id : Nat
  month : String
  category : String
  amount : ℚ
deriving DecidableEq, Repr

/-- The SQLite database file.  `nextTxnId` / `nextBudgetId` model the
`AUTOINCREMENT` counters of the two tables that the modelled operations
insert into. -/
structure Store where
  transactions : List Txn
  categories : List String
  budgets : List Budget
  recurring : List Rule
  nextTxnId : Nat
  nextBudgetId : Nat
deriving DecidableEq, Repr

/-- The row inserted by the `INSERT INTO transactions(...)` statement inside
`apply_recurring`: the cursor date plus the rule's fields, with the fixed
account label `"Recurring"`. -/
def mkTxn (r : Rule) (id : Nat) (d : Date) : Txn :=
  { id := id, date := d, ttype := r.ttype, category := r.category,
    description := r.description, amount := r.amount, account := "Recurring" }

/-- Assign consecutive `AUTOINCREMENT` ids to the rows posted for one rule. -/
def numberTxns (r : Rule) (startId : Nat) : List Date → List Txn
  | [] => []
  | d :: ds => mkTxn r startId d :: numberTxns r (startId + 1) ds

/-- An upper bound on how many times the `while next_date <= now` loop of
`apply_recurring` can iterate for a cursor starting at `cursor`: each
iteration either breaks (non-monthly interval) or moves the cursor one
month forward, and the loop guard keeps the cursor's month at or before
`now`'s month.  Used as structural fuel for `ruleLoop`;
`ruleLoop_fuel_irrelevant` below shows any fuel at least this large gives
the same result, so the embedding computes exactly the unbounded loop. -/
def ruleFuel (now cursor : Date) : Nat := monthIdx now + 1 - monthIdx cursor

/-- The `while next_date <= now` loop of `apply_recurring` for a single
rule (src/app.py lines 154-175), with structural fuel.  Returns the list of
posted occurrence dates and the final cursor, or `none` if the
`add_months(next_date, 1)` call raises (`ValueError` past December 9999),
which aborts the whole pass before `conn.commit()`. -/
def ruleLoop (now : Date) (interval : String) : Nat → Date → Option (List Date × Date)
  | 0, cursor => some ([], cursor)
  | fuel + 1, cursor =>
    if dateLe cursor now then
      if interval == "monthly" then
        match add_months cursor 1 with
        | none => none
        | some c2 =>
          match ruleLoop now interval fuel c2 with
          | none => none
          | some (ds, fin) => some (cursor :: ds, fin)
      else
        some ([cursor], cursor)
    else
      some ([], cursor)

/-- The per-rule body of `apply_recurring`, iterated over the snapshot of
the `recurring` table (src/app.py lines 152-178): run the loop, append the
posted transactions, and issue `UPDATE recurring SET next_date=? WHERE id=?`
when the cursor advanced. -/
def applyRules (now : Date) : List Rule → Store → Nat → Option (Nat × Store)
  | [], st, made => some (made, st)
  | r :: rs, st, made =>
    match ruleLoop now r.interval (ruleFuel now r.next_date) r.next_date with
    | none => none
    | some (ds, fin) =>
      let st1 : Store :=
        { st with transactions := st.transactions ++ numberTxns r st.nextTxnId ds,
                  nextTxnId := st.nextTxnId + ds.length }
      let st2 : Store :=
        if fin = r.next_date then st1
        else { st1 with
               recurring := st1.recurring.map fun e =>
                 if e.id = r.id then { e with next_date := fin } else e }
      applyRules now rs st2 (made + ds.length)

/-- Source `apply_recurring(now)` (src/app.py lines 146-180).  Reads the
rule snapshot, processes every rule, and returns the number of posted
transactions together with the committed store; `none` models the pass
dying with an uncaught `ValueError`, in which case nothing is committed. -/
def apply_recurring (now : Date) (st : Store) : Option (Nat × Store) :=
  applyRules now st.recurring st 0

/-- The schedule of due occurrences as the specification words it: the dates
`next_date, add_months(next_date,1), add_months(add_months(next_date,1),1), ...`
while that date is `<= now` (fuelled like `ruleLoop`; the fuel never runs
out for the arguments it is used with, see `monthlyOccurrencesF_congr`). -/
def monthlyOccurrencesF (now : Date) : Nat → Date → List Date
  | 0, _ => []
  | fuel + 1, d =>
    if dateLe d now then
      d :: (match add_months d 1 with
            | some d2 => monthlyOccurrencesF now fuel d2
            | none => [])
    else []

/-- The due occurrences of a monthly rule whose next occurrence is `d`. -/
def monthlyOccurrences (now d : Date) : List Date :=
  monthlyOccurrencesF now (ruleFuel now d) d

/-! ### Calendar arithmetic lemmas -/

theorem dateLe_iff {a b : Date} :
    dateLe a b = true ↔
      (a.year < b.year ∨ (a.year = b.year ∧
        (a.month < b.month ∨ (a.month = b.month ∧ a.day ≤ b.day)))) := by
  simp [dateLe]

theorem monthIdx_le_of_dateLe {a b : Date} (h : dateLe a b = true)
    (ham : a.month ≤ 12) (hbm : 1 ≤ b.month) : monthIdx a ≤ monthIdx b := by
  rw [dateLe_iff] at h
  unfold monthIdx
  omega

theorem dateLe_false_of_monthIdx {a b : Date} (ham : a.month ≤ 12)
    (hbm : 1 ≤ b.month) (h : monthIdx b < monthIdx a) : dateLe a b = false := by
  rw [← Bool.not_eq_true, dateLe_iff]
  unfold monthIdx at h
  omega

theorem daysInMonthP_ge (y m : Int) (h1 : 1 ≤ m) (h2 : m ≤ 12) :
    28 ≤ daysInMonthP y m := by
  unfold daysInMonthP monthDays
  interval_cases m <;> simp <;> split <;> norm_num

theorem pyDate_eq_some {y m day : Int} {d : Date} :
    pyDate y m day = some d ↔
      (1 ≤ y ∧ y ≤ 9999 ∧ 1 ≤ m ∧ m ≤ 12 ∧ 1 ≤ day ∧ day ≤ daysInMonthP y m ∧
        d = ⟨y.toNat, m.toNat, day.toNat⟩) := by
  unfold pyDate
  split
  case isTrue hc =>
    simp only [Option.some.injEq]
    constructor
    · intro h
      exact ⟨hc.1, hc.2.1, hc.2.2.1, hc.2.2.2.1, hc.2.2.2.2.1, hc.2.2.2.2.2, h.symm⟩
    · intro h
      exact h.2.2.2.2.2.2.symm
  case isFalse hc =>
    simp only [reduceCtorEq, false_iff]
    intro h
    exact hc ⟨h.1, h.2.1, h.2.2.1, h.2.2.2.1, h.2.2.2.2.1, h.2.2.2.2.2.1⟩

theorem pyDate_valid {y m day : Int} {d : Date} (h : pyDate y m day = some d) :
    d.Valid := by
  rw [pyDate_eq_some] at h
  obtain ⟨h1, h2, h3, h4, h5, h6, rfl⟩ := h
  unfold Date.Valid
  dsimp only
  have hy : ((y.toNat : Nat) : Int) = y := Int.toNat_of_nonneg (by omega)
  have hm : ((m.toNat : Nat) : Int) = m := Int.toNat_of_nonneg (by omega)
  have hd : ((day.toNat : Nat) : Int) = day := Int.toNat_of_nonneg (by omega)
  refine ⟨by omega, by omega, by omega, by omega, by omega, ?_⟩
  rw [hy, hm, hd]
  exact h6

theorem add_months_eq (d : Date) (n : Int) :
    add_months d n =
      pyDate ((d.year : Int) + ((d.month : Int) - 1 + n) / 12)
        (((d.month : Int) - 1 + n) % 12 + 1)
        (min (d.day : Int)
          (daysInMonthP ((d.year : Int) + ((d.month : Int) - 1 + n) / 12)
            (((d.month : Int) - 1 + n) % 12 + 1))) := rfl

theorem add_months_one_props {d d2 : Date} (h : add_months d 1 = some d2) :
    d2.Valid ∧ monthIdx d2 = monthIdx d + 1 := by
  rw [add_months_eq] at h
  refine ⟨pyDate_valid h, ?_⟩
  rw [pyDate_eq_some] at h
  obtain ⟨h1, h2, h3, h4, h5, h6, rfl⟩ := h
  unfold monthIdx
  dsimp only
  omega

theorem add_months_one_total (d : Date) (hd : d.Valid)
    (hmax : monthIdx d < 12 * 9999 + 12) :
    ∃ d2, add_months d 1 = some d2 ∧ d2.Valid ∧ monthIdx d2 = monthIdx d + 1 := by
  obtain ⟨h1, h2, h3, h4, h5, h6⟩ := hd
  unfold monthIdx at hmax
  have hsome : add_months d 1 =
      some ⟨((d.year : Int) + ((d.month : Int) - 1 + 1) / 12).toNat,
        (((d.month : Int) - 1 + 1) % 12 + 1).toNat,
        (min (d.day : Int)
          (daysInMonthP ((d.year : Int) + ((d.month : Int) - 1 + 1) / 12)
            (((d.month : Int) - 1 + 1) % 12 + 1))).toNat⟩ := by
    rw [add_months_eq, pyDate_eq_some]
    have hge := daysInMonthP_ge ((d.year : Int) + ((d.month : Int) - 1 + 1) / 12)
      (((d.month : Int) - 1 + 1) % 12 + 1) (by omega) (by omega)
    exact ⟨by omega, by omega, by omega, by omega, by omega, min_le_right _ _, rfl⟩
  exact ⟨_, hsome, (add_months_one_props hsome).1, (add_months_one_props hsome).2⟩

/-! ### Recurring-loop lemmas -/

theorem ruleLoop_fuel_irrelevant (now : Date) (interval : String) (hnow : now.Valid) :
    ∀ f1 f2 (cursor : Date), cursor.Valid → ruleFuel now cursor ≤ f1 →
      ruleFuel now cursor ≤ f2 →
      ruleLoop now interval f1 cursor = ruleLoop now interval f2 cursor := by
  intro f1
  induction f1 with
  | zero =>
    intro f2 cursor hc h1 h2
    have hguard : dateLe cursor now = false := by
      apply dateLe_false_of_monthIdx hc.2.2.2.1 hnow.2.2.1
      unfold ruleFuel at h1; omega
    cases f2 with
    | zero => rfl
    | succ f2 => simp [ruleLoop, hguard]
  | succ f1 ih =>
    intro f2 cursor hc h1 h2
    cases f2 with
    | zero =>
      have hguard : dateLe cursor now = false := by
        apply dateLe_false_of_monthIdx hc.2.2.2.1 hnow.2.2.1
        unfold ruleFuel at h2; omega
      simp [ruleLoop, hguard]
    | succ f2 =>
      cases hguard : dateLe cursor now with
      | false => simp [ruleLoop, hguard]
      | true =>
        by_cases hint : (interval == "monthly") = true
        · cases hadd : add_months cursor 1 with
          | none => simp [ruleLoop, hguard, hint, hadd]
          | some c2 =>
            obtain ⟨hc2, hidx⟩ := add_months_one_props hadd
            have hle := monthIdx_le_of_dateLe hguard hc.2.2.2.1 hnow.2.2.1
            have hrec := ih f2 c2 hc2 (by unfold ruleFuel at *; omega)
              (by unfold ruleFuel at *; omega)
            simp [ruleLoop, hguard, hint, hadd, hrec]
        · simp [ruleLoop, hguard, hint]

theorem ruleLoop_monthly_char (now : Date) (hnow : now.Valid)
    (hmax : monthIdx now < 12 * 9999 + 12) :
    ∀ fuel (cursor : Date), cursor.Valid → ruleFuel now cursor ≤ fuel →
      ∃ fin, ruleLoop now "monthly" fuel cursor =
          some (monthlyOccurrencesF now fuel cursor, fin) ∧
        fin.Valid ∧ dateLe fin now = false ∧ monthIdx cursor ≤ monthIdx fin ∧
        (dateLe cursor now = false → fin = cursor) ∧
        (dateLe cursor now = true → monthIdx cursor < monthIdx fin) := by
  intro fuel
  induction fuel with
  | zero =>
    intro cursor hc hf
    have hguard : dateLe cursor now = false := by
      apply dateLe_false_of_monthIdx hc.2.2.2.1 hnow.2.2.1
      unfold ruleFuel at hf; omega
    exact ⟨cursor, rfl, hc, hguard, le_refl _, fun _ => rfl,
      fun h => by rw [hguard] at h; exact Bool.noConfusion h⟩
  | succ fuel ih =>
    intro cursor hc hf
    cases hguard : dateLe cursor now with
    | false =>
      refine ⟨cursor, ?_, hc, hguard, le_refl _, fun _ => rfl,
        fun h => Bool.noConfusion h⟩
      simp [ruleLoop, monthlyOccurrencesF, hguard]
    | true =>
      have hcle := monthIdx_le_of_dateLe hguard hc.2.2.2.1 hnow.2.2.1
      obtain ⟨c2, hadd, hc2, hidx⟩ := add_months_one_total cursor hc (by omega)
      obtain ⟨fin, hloop, hfin, hfinle, hidx2, _, _⟩ :=
        ih c2 hc2 (by unfold ruleFuel at *; omega)
      refine ⟨fin, ?_, hfin, hfinle, by omega, fun h => Bool.noConfusion h,
        fun _ => by omega⟩
      simp [ruleLoop, monthlyOccurrencesF, hguard, hadd, hloop]

theorem ruleLoop_some_facts (now : Date) (hnow : now.Valid) :
    ∀ fuel (cursor : Date) ds fin, cursor.Valid → ruleFuel now cursor ≤ fuel →
      ruleLoop now "monthly" fuel cursor = some (ds, fin) →
      dateLe fin now = false ∧ monthIdx cursor ≤ monthIdx fin ∧
        (fin = cursor ↔ ds = []) := by
  intro fuel
  induction fuel with
  | zero =>
    intro cursor ds fin hc hf h
    have hguard : dateLe cursor now = false := by
      apply dateLe_false_of_monthIdx hc.2.2.2.1 hnow.2.2.1
      unfold ruleFuel at hf; omega
    simp only [ruleLoop, Option.some.injEq, Prod.mk.injEq] at h
    obtain ⟨rfl, rfl⟩ := h
    exact ⟨hguard, le_refl _, by simp⟩
  | succ fuel ih =>
    intro cursor ds fin hc hf h
    cases hguard : dateLe cursor now with
    | false =>
      simp only [ruleLoop, hguard, Bool.false_eq_true, if_false,
        Option.some.injEq, Prod.mk.injEq] at h
      obtain ⟨rfl, rfl⟩ := h
      exact ⟨hguard, le_refl _, by simp⟩
    | true =>
      have hcle := monthIdx_le_of_dateLe hguard hc.2.2.2.1 hnow.2.2.1
      cases hadd : add_months cursor 1 with
      | none => simp [ruleLoop, hguard, hadd] at h
      | some c2 =>
        obtain ⟨hc2, hidx⟩ := add_months_one_props hadd
        cases hrec : ruleLoop now "monthly" fuel c2 with
        | none => simp [ruleLoop, hguard, hadd, hrec] at h
        | some p =>
          obtain ⟨ds2, fin2⟩ := p
          simp only [ruleLoop, hguard, if_true, beq_self_eq_true, hadd, hrec,
            Option.some.injEq, Prod.mk.injEq] at h
          obtain ⟨h1, h2⟩ := h
          subst h1
          subst h2
          obtain ⟨hf1, hf2, _⟩ :=
            ih c2 ds2 fin2 hc2 (by unfold ruleFuel at *; omega) hrec
          refine ⟨hf1, by omega, ?_⟩
          constructor
          · intro heq
            rw [heq] at hf2
            exact absurd hf2 (by omega)
          · intro heq
            exact absurd heq (List.cons_ne_nil _ _)

theorem applyRules_all_skip (now : Date) :
    ∀ (rules : List Rule) (st : Store) (made : Nat),
      (∀ r ∈ rules, dateLe r.next_date now = false) →
      applyRules now rules st made = some (made, st) := by
  intro rules
  induction rules with
  | nil => intro st made _; rfl
  | cons r rs ih =>
    intro st made h
    have hr := h r (by simp)
    have hloop : ruleLoop now r.interval (ruleFuel now r.next_date) r.next_date =
        some ([], r.next_date) := by
      cases hfe : ruleFuel now r.next_date with
      | zero => rfl
      | succ k => simp [ruleLoop, hr]
    have hst : ({ st with
        transactions := st.transactions ++ numberTxns r st.nextTxnId [],
        nextTxnId := st.nextTxnId + ([] : List Date).length } : Store) = st := by
      simp [numberTxns]
    simp only [applyRules, hloop, hst, if_pos]
    have : made + ([] : List Date).length = made := rfl
    rw [this]
    exact ih st made (fun r2 h2 => h r2 (List.mem_cons_of_mem _ h2))

theorem numberTxns_map_date (r : Rule) (ds : List Date) :
    ∀ i, (numberTxns r i ds).map Txn.date = ds := by
  induction ds with
  | nil => intro i; rfl
  | cons d ds ih => intro i; simp [numberTxns, mkTxn, ih]

theorem numberTxns_length (r : Rule) (ds : List Date) :
    ∀ i, (numberTxns r i ds).length = ds.length := by
  induction ds with
  | nil => intro i; rfl
  | cons d ds ih => intro i; simp [numberTxns, ih]

theorem numberTxns_fields (r : Rule) (ds : List Date) :
    ∀ i t, t ∈ numberTxns r i ds →
      t.ttype = r.ttype ∧ t.category = r.category ∧
        t.description = r.description ∧ t.amount = r.amount ∧
        t.account = "Recurring" := by
  induction ds with
  | nil => intro i t ht; cases ht
  | cons d ds ih =>
    intro i t ht
    rcases List.mem_cons.mp ht with rfl | hmem
    · exact ⟨rfl, rfl, rfl, rfl, rfl⟩
    · exact ih (i + 1) t hmem

theorem applyRules_final_gt (now : Date) (hnow : now.Valid) :
    ∀ (rules : List Rule) (st : Store) (made c : Nat) (stf : Store),
      (∀ r ∈ rules, r.interval = "monthly" ∧ r.next_date.Valid) →
      (∀ e ∈ st.recurring, dateLe e.next_date now = false ∨
        ∃ r ∈ rules, r.id = e.id ∧ r.next_date = e.next_date) →
      applyRules now rules st made = some (c, stf) →
      ∀ e ∈ stf.recurring, dateLe e.next_date now = false := by
  intro rules
  induction rules with
  | nil =>
    intro st made c stf _ hinv h e he
    simp only [applyRules, Option.some.injEq, Prod.mk.injEq] at h
    obtain ⟨rfl, rfl⟩ := h
    rcases hinv e he with h1 | ⟨r, hr, _⟩
    · exact h1
    · cases hr
  | cons r rs ih =>
    intro st made c stf hall hinv h e he
    obtain ⟨hmon, hval⟩ := hall r (by simp)
    cases hloop : ruleLoop now r.interval (ruleFuel now r.next_date) r.next_date with
    | none => simp [applyRules, hloop] at h
    | some p =>
      obtain ⟨ds, fin⟩ := p
      have hfacts := ruleLoop_some_facts now hnow (ruleFuel now r.next_date)
        r.next_date ds fin hval (le_refl _) (by rw [← hmon]; exact hloop)
      have hall2 : ∀ r2 ∈ rs, r2.interval = "monthly" ∧ r2.next_date.Valid :=
        fun r2 h2 => hall r2 (List.mem_cons_of_mem _ h2)
      by_cases hupd : fin = r.next_date
      · simp only [applyRules, hloop, if_pos hupd] at h
        refine ih _ (made + ds.length) c stf hall2 ?_ h e he
        intro e2 he2
        rcases hinv e2 he2 with h1 | ⟨r2, hr2, hid, hnd⟩
        · exact Or.inl h1
        · rcases List.mem_cons.mp hr2 with rfl | hmem
          · left
            rw [← hnd, ← hupd]
            exact hfacts.1
          · exact Or.inr ⟨r2, hmem, hid, hnd⟩
      · simp only [applyRules, hloop, if_neg hupd] at h
        refine ih _ (made + ds.length) c stf hall2 ?_ h e he
        intro e2 he2
        simp only [List.mem_map] at he2
        obtain ⟨e0, he0, rfl⟩ := he2
        by_cases hid0 : e0.id = r.id
        · simp only [if_pos hid0]
          exact Or.inl hfacts.1
        · simp only [if_neg hid0]
          rcases hinv e0 he0 with h1 | ⟨r2, hr2, hid, hnd⟩
          · exact Or.inl h1
          · rcases List.mem_cons.mp hr2 with rfl | hmem
            · exact absurd hid.symm hid0
            · exact Or.inr ⟨r2, hmem, hid, hnd⟩

/-! ### Claims C1-C4: the recurring poster -/

/-- Claim C1 (amended): for every monthly recurring rule and every date
`now` strictly before December 9999, `apply_recurring now` posts exactly
one transaction for each scheduled occurrence on or before `now` (the
dates `next_date, add_months(next_date,1), ...` while `<= now`, boundary
inclusive), each posted transaction carrying the rule's type, category,
description and amount with account `"Recurring"`, and afterwards the
rule's persisted `next_date` is strictly greater than `now`.  The
December-9999 guard is forced by `claim_C1_counterexample`: at the very
end of the representable date range the pass dies in
`add_months` (`ValueError`) instead of posting. -/
theorem claim_C1_monthly_catchup (now : Date) (r : Rule) (st : Store)
    (hint : r.interval = "monthly") (hst : st.recurring = [r])
    (hnow : now.Valid) (hval : r.next_date.Valid)
    (hmax : monthIdx now < 12 * 9999 + 12) :
    ∃ fin, apply_recurring now st =
        some ((monthlyOccurrences now r.next_date).length,
          { st with
            transactions := st.transactions ++
              numberTxns r st.nextTxnId (monthlyOccurrences now r.next_date),
            nextTxnId := st.nextTxnId + (monthlyOccurrences now r.next_date).length,
            recurring := [{ r with next_date := fin }] }) ∧
      dateLe fin now = false ∧
      (numberTxns r st.nextTxnId (monthlyOccurrences now r.next_date)).map Txn.date
        = monthlyOccurrences now r.next_date ∧
      ∀ t ∈ numberTxns r st.nextTxnId (monthlyOccurrences now r.next_date),
        t.ttype = r.ttype ∧ t.category = r.category ∧
          t.description = r.description ∧ t.amount = r.amount ∧
          t.account = "Recurring" := by
  obtain ⟨fin, hloop, hfinv, hfinle, hidxle, hsame, hadv⟩ :=
    ruleLoop_monthly_char now hnow hmax (ruleFuel now r.next_date) r.next_date
      hval (le_refl _)
  refine ⟨fin, ?_, hfinle, numberTxns_map_date r _ _,
    fun t ht => numberTxns_fields r _ _ t ht⟩
  unfold apply_recurring
  rw [hst]
  have hloop2 : ruleLoop now r.interval (ruleFuel now r.next_date) r.next_date =
      some (monthlyOccurrences now r.next_date, fin) := by
    rw [hint]; exact hloop
  by_cases hupd : fin = r.next_date
  · simp only [applyRules, hloop2, if_pos hupd, Nat.zero_add, Option.some.injEq,
      Prod.mk.injEq]
    refine ⟨by trivial, ?_⟩
    rw [hst, hupd]
  · simp only [applyRules, hloop2, if_neg hupd, Nat.zero_add, Option.some.injEq,
      Prod.mk.injEq]
    refine ⟨by trivial, ?_⟩
    rw [hst]
    simp

/-- Concrete monthly rule used by the C1 witness. -/
def ruleC1 : Rule :=
  { id := 1, ttype := "Expense", category := "Rent", description := some "flat",
    amount := 1000, interval := "monthly", next_date := ⟨2024, 1, 15⟩ }

/-- Concrete store used by the C1 witness. -/
def stC1 : Store :=
  { transactions := [], categories := [], budgets := [],
    recurring := [ruleC1], nextTxnId := 1, nextBudgetId := 1 }

/-- Claim C1 witness: the amended claim at the concrete catch-up instance
(now = 2024-04-10, rule due since 2024-01-15). -/
theorem claim_C1_witness :
    ∃ fin, apply_recurring ⟨2024, 4, 10⟩ stC1 =
        some ((monthlyOccurrences ⟨2024, 4, 10⟩ ruleC1.next_date).length,
          { stC1 with
            transactions := stC1.transactions ++
              numberTxns ruleC1 stC1.nextTxnId
                (monthlyOccurrences ⟨2024, 4, 10⟩ ruleC1.next_date),
            nextTxnId := stC1.nextTxnId +
              (monthlyOccurrences ⟨2024, 4, 10⟩ ruleC1.next_date).length,
            recurring := [{ ruleC1 with next_date := fin }] }) ∧
      dateLe fin ⟨2024, 4, 10⟩ = false ∧
      (numberTxns ruleC1 stC1.nextTxnId
          (monthlyOccurrences ⟨2024, 4, 10⟩ ruleC1.next_date)).map Txn.date
        = monthlyOccurrences ⟨2024, 4, 10⟩ ruleC1.next_date ∧
      ∀ t ∈ numberTxns ruleC1 stC1.nextTxnId
          (monthlyOccurrences ⟨2024, 4, 10⟩ ruleC1.next_date),
        t.ttype = ruleC1.ttype ∧ t.category = ruleC1.category ∧
          t.description = ruleC1.description ∧ t.amount = ruleC1.amount ∧
          t.account = "Recurring" :=
  claim_C1_monthly_catchup ⟨2024, 4, 10⟩ ruleC1 stC1 rfl rfl (by decide)
    (by decide) (by decide)

/-- Claim C1 counterexample to the unamended statement ("for every date
now"): with now = 9999-12-15 and a monthly rule due since 9999-12-01, the
occurrence is on or before now, yet the pass returns no result at all
(the `add_months` call inside the loop builds year 10000 and Python raises
`ValueError` before `conn.commit()`), so no transaction is posted and
`next_date` is not advanced. -/
theorem claim_C1_counterexample :
    dateLe ⟨9999, 12, 1⟩ ⟨9999, 12, 15⟩ = true ∧
    apply_recurring ⟨9999, 12, 15⟩
      { transactions := [], categories := [], budgets := [],
        recurring := [{ id := 1, ttype := "Expense", category := "Rent",
                        description := some "flat", amount := 1000,
                        interval := "monthly", next_date := ⟨9999, 12, 1⟩ }],
        nextTxnId := 1, nextBudgetId := 1 } = none := by decide

/-- Claim C2: for the concrete catch-up case of a monthly rule with
next_date = 2024-01-15 and now = 2024-04-10, `apply_recurring` posts
exactly 3 transactions dated 2024-01-15, 2024-02-15 and 2024-03-15 (with
the rule's fields and account "Recurring"), and updates the rule's stored
next_date to 2024-04-15.  The returned count is 3 and the rest of the
store is untouched. -/
theorem claim_C2_concrete_catchup :
    apply_recurring ⟨2024, 4, 10⟩
      { transactions := [], categories := [], budgets := [],
        recurring := [{ id := 7, ttype := "Expense", category := "Rent",
                        description := some "flat", amount := 1000,
                        interval := "monthly", next_date := ⟨2024, 1, 15⟩ }],
        nextTxnId := 1, nextBudgetId := 1 } =
    some (3,
      { transactions :=
          [{ id := 1, date := ⟨2024, 1, 15⟩, ttype := "Expense", category := "Rent",
             description := some "flat", amount := 1000, account := "Recurring" },
           { id := 2, date := ⟨2024, 2, 15⟩, ttype := "Expense", category := "Rent",
             description := some "flat", amount := 1000, account := "Recurring" },
           { id := 3, date := ⟨2024, 3, 15⟩, ttype := "Expense", category := "Rent",
             description := some "flat", amount := 1000, account := "Recurring" }],
        categories := [], budgets := [],
        recurring := [{ id := 7, ttype := "Expense", category := "Rent",
                        description := some "flat", amount := 1000,
                        interval := "monthly", next_date := ⟨2024, 4, 15⟩ }],
        nextTxnId := 4, nextBudgetId := 1 }) := by decide

/-- Claim C3 (amended): for every rule set all of whose rules have
interval "monthly", if a first `apply_recurring now` pass completes
(returning a count and an updated store), then an immediately repeated
pass over the updated store, with no intervening changes, posts zero
additional transactions: it returns count 0 and leaves the store exactly
as it was.  The restriction to monthly rules is forced by
`claim_C3_counterexample`: a due rule with any other interval value posts
one transaction on every run. -/
theorem claim_C3_idempotent (now : Date) (st : Store) (c1 : Nat) (st1 : Store)
    (hmon : ∀ r ∈ st.recurring, r.interval = "monthly")
    (hval : ∀ r ∈ st.recurring, r.next_date.Valid) (hnow : now.Valid)
    (h1 : apply_recurring now st = some (c1, st1)) :
    apply_recurring now st1 = some (0, st1) := by
  unfold apply_recurring at h1 ⊢
  have hgt := applyRules_final_gt now hnow st.recurring st 0 c1 st1
    (fun r hr => ⟨hmon r hr, hval r hr⟩)
    (fun e he => Or.inr ⟨e, he, rfl, rfl⟩) h1
  exact applyRules_all_skip now st1.recurring st1 0 hgt

/-- Concrete monthly rule used by the C3 witness. -/
def ruleC3 : Rule :=
  { id := 1, ttype := "Income", category := "Salary", description := none,
    amount := 500, interval := "monthly", next_date := ⟨2024, 1, 15⟩ }

/-- Concrete store used by the C3 witness. -/
def stC3 : Store :=
  { transactions := [], categories := [], budgets := [],
    recurring := [ruleC3], nextTxnId := 1, nextBudgetId := 1 }

/-- The store produced by the first pass over `stC3` at now = 2024-04-10. -/
def stC3after : Store :=
  { transactions := [mkTxn ruleC3 1 ⟨2024, 1, 15⟩, mkTxn ruleC3 2 ⟨2024, 2, 15⟩,
      mkTxn ruleC3 3 ⟨2024, 3, 15⟩],
    categories := [], budgets := [],
    recurring := [{ ruleC3 with next_date := ⟨2024, 4, 15⟩ }],
    nextTxnId := 4, nextBudgetId := 1 }

/-- Claim C3 witness: the amended claim at a concrete monthly rule set. -/
theorem claim_C3_witness : apply_recurring ⟨2024, 4, 10⟩ stC3after = some (0, stC3after) :=
  claim_C3_idempotent ⟨2024, 4, 10⟩ stC3 3 stC3after
    (by decide) (by decide) (by decide) (by decide)

/-- Concrete non-monthly rule used by the C3 counterexample. -/
def ruleC3x : Rule :=
  { id := 1, ttype := "Expense", category := "Food", description := none,
    amount := 5, interval := "weekly", next_date := ⟨2024, 1, 1⟩ }

/-- Store with the one non-monthly rule, before any pass. -/
def stC3x : Store :=
  { transactions := [], categories := [], budgets := [],
    recurring := [ruleC3x], nextTxnId := 1, nextBudgetId := 1 }

/-- The same store after one pass at now = 2024-01-10. -/
def stC3x1 : Store :=
  { transactions := [mkTxn ruleC3x 1 ⟨2024, 1, 1⟩], categories := [],
    budgets := [], recurring := [ruleC3x], nextTxnId := 2, nextBudgetId := 1 }

/-- The same store after a second pass at now = 2024-01-10. -/
def stC3x2 : Store :=
  { transactions := [mkTxn ruleC3x 1 ⟨2024, 1, 1⟩, mkTxn ruleC3x 2 ⟨2024, 1, 1⟩],
    categories := [], budgets := [],
    recurring := [ruleC3x], nextTxnId := 3, nextBudgetId := 1 }

/-- Claim C3 counterexample to the unamended statement ("for every rule
set"): a due rule whose interval is "weekly" is posted once per pass and
its `next_date` is never advanced, so the second run posts 1 additional
transaction, not 0. -/
theorem claim_C3_counterexample :
    apply_recurring ⟨2024, 1, 10⟩ stC3x = some (1, stC3x1) ∧
    apply_recurring ⟨2024, 1, 10⟩ stC3x1 = some (1, stC3x2) := by decide

/-- Claim C4: for every recurring rule whose interval is not "monthly"
and whose next_date is on or before now, `apply_recurring` posts exactly
one transaction for that rule (the loop breaks after the first post
instead of advancing), and the rule's stored `next_date` — indeed the
whole `recurring` table — is left unchanged by the pass. -/
theorem claim_C4_nonmonthly_posts_once (now : Date) (r : Rule) (st : Store)
    (hint : r.interval ≠ "monthly") (hdue : dateLe r.next_date now = true)
    (hst : st.recurring = [r]) (hnow : now.Valid) (hval : r.next_date.Valid) :
    ∃ st2, apply_recurring now st = some (1, st2) ∧
      st2.transactions = st.transactions ++ [mkTxn r st.nextTxnId r.next_date] ∧
      st2.recurring = st.recurring := by
  unfold apply_recurring
  have hidxle := monthIdx_le_of_dateLe hdue hval.2.2.2.1 hnow.2.2.1
  obtain ⟨k, hk⟩ : ∃ k, ruleFuel now r.next_date = k + 1 := by
    unfold ruleFuel
    exact ⟨monthIdx now - monthIdx r.next_date, by omega⟩
  have hbeq : (r.interval == "monthly") = false := by
    simp only [beq_eq_false_iff_ne, ne_eq]
    exact hint
  have hloop : ruleLoop now r.interval (ruleFuel now r.next_date) r.next_date =
      some ([r.next_date], r.next_date) := by
    rw [hk]
    simp [ruleLoop, hdue, hbeq]
  refine ⟨{ st with
      transactions := st.transactions ++ [mkTxn r st.nextTxnId r.next_date],
      nextTxnId := st.nextTxnId + 1 }, ?_, rfl, rfl⟩
  rw [hst]
  simp only [applyRules, hloop]
  simp [numberTxns, hst]

/-- Concrete non-monthly rule used by the C4 witness. -/
def ruleC4 : Rule :=
  { id := 2, ttype := "Expense", category := "Transport", description := some "bus",
    amount := 30, interval := "weekly", next_date := ⟨2024, 2, 1⟩ }

/-- Concrete store used by the C4 witness. -/
def stC4 : Store :=
  { transactions := [], categories := [], budgets := [],
    recurring := [ruleC4], nextTxnId := 5, nextBudgetId := 1 }

/-- Claim C4 witness: the claim at a concrete due weekly rule. -/
theorem claim_C4_witness :
    ∃ st2, apply_recurring ⟨2024, 2, 20⟩ stC4 = some (1, st2) ∧
      st2.transactions = stC4.transactions ++ [mkTxn ruleC4 stC4.nextTxnId ruleC4.next_date] ∧
      st2.recurring = stC4.recurring :=
  claim_C4_nonmonthly_posts_once ⟨2024, 2, 20⟩ ruleC4 stC4 (by decide) (by decide)
    rfl (by decide) (by decide)

/-! ### Claims C5-C6: month arithmetic -/

/-- Length of a month as the specification words it: the day count of the
target month, "leap-year aware" with February having 29 days exactly when
the year is divisible by 4 and not by 100, or divisible by 400.  This
definition follows the spec text; `daysInMonthP_eq_spec` proves it agrees
with the source's literal month-length table. -/
def specDaysInMonth (y m : Int) : Int :=
  if m = 2 then (if (4 ∣ y ∧ ¬(100 ∣ y)) ∨ 400 ∣ y then 29 else 28)
  else if m = 4 ∨ m = 6 ∨ m = 9 ∨ m = 11 then 30 else 31

theorem isLeap_iff (y : Int) :
    isLeap y = true ↔ ((4 ∣ y ∧ ¬(100 ∣ y)) ∨ 400 ∣ y) := by
  simp [isLeap]
  omega

theorem daysInMonthP_eq_spec (y m : Int) (h1 : 1 ≤ m) (h2 : m ≤ 12) :
    daysInMonthP y m = specDaysInMonth y m := by
  by_cases hm2 : m = 2
  · subst hm2
    cases hl : isLeap y with
    | true =>
      have hsl := (isLeap_iff y).mp hl
      simp [daysInMonthP, monthDays, specDaysInMonth, hsl, hl]
    | false =>
      have hsl : ¬((4 ∣ y ∧ ¬(100 ∣ y)) ∨ 400 ∣ y) := by
        rw [← isLeap_iff, hl]
        simp
      simp [daysInMonthP, monthDays, specDaysInMonth, hsl, hl]
  · interval_cases m <;>
      simp_all [daysInMonthP, monthDays, specDaysInMonth]

/-- Core computation of `add_months`: whenever the target month index
`12 * ty + (tm - 1)` equals the source month index plus `n` (with `tm` a
real month number and `ty` inside Python's year range), `add_months`
returns year `ty`, month `tm`, and the original day clamped to the target
month's length. -/
theorem add_months_char (d : Date) (n ty tm : Int) (hd : d.Valid)
    (htm1 : 1 ≤ tm) (htm2 : tm ≤ 12)
    (hidx : 12 * ty + (tm - 1) = 12 * (d.year : Int) + ((d.month : Int) - 1) + n)
    (hty1 : 1 ≤ ty) (hty2 : ty ≤ 9999) :
    add_months d n =
      some ⟨ty.toNat, tm.toNat, (min (d.day : Int) (daysInMonthP ty tm)).toNat⟩ := by
  have hyeq : (d.year : Int) + ((d.month : Int) - 1 + n) / 12 = ty := by omega
  have hmeq : ((d.month : Int) - 1 + n) % 12 + 1 = tm := by omega
  rw [add_months_eq, hyeq, hmeq, pyDate_eq_some]
  have h28 := daysInMonthP_ge ty tm htm1 htm2
  have hday1 : 1 ≤ d.day := hd.2.2.2.2.1
  exact ⟨hty1, hty2, htm1, htm2, by omega, min_le_right _ _, rfl⟩

/-- Claim C5 (amended): for every valid date `d` and every integer `n`
(negative included), whenever the target year stays within Python's
representable range 1..9999, `add_months d n` returns the date `n` months
after `d` — target year `ty` and month `tm` characterized by
`12*ty + (tm-1) = 12*year(d) + (month(d)-1) + n` — with day-of-month equal
to `d`'s day clamped to the last valid day of the target month, February's
length being leap-year aware exactly as the claim words it
(`specDaysInMonth`).  The range restriction is forced by
`claim_C5_counterexample`: outside it `datetime.date` raises and no date
is returned. -/
theorem claim_C5_add_months_spec (d : Date) (n ty tm : Int) (hd : d.Valid)
    (htm1 : 1 ≤ tm) (htm2 : tm ≤ 12)
    (hidx : 12 * ty + (tm - 1) = 12 * (d.year : Int) + ((d.month : Int) - 1) + n)
    (hty1 : 1 ≤ ty) (hty2 : ty ≤ 9999) :
    add_months d n =
      some ⟨ty.toNat, tm.toNat, (min (d.day : Int) (specDaysInMonth ty tm)).toNat⟩ := by
  rw [← daysInMonthP_eq_spec ty tm htm1 htm2]
  exact add_months_char d n ty tm hd htm1 htm2 hidx hty1 hty2

/-- Claim C5 witness: adding one month to 2024-01-31 clamps to 2024-02-29
(leap year). -/
theorem claim_C5_witness :
    add_months ⟨2024, 1, 31⟩ 1 =
      some ⟨(2024 : Int).toNat, (2 : Int).toNat,
        (min ((31 : Nat) : Int) (specDaysInMonth 2024 2)).toNat⟩ :=
  claim_C5_add_months_spec ⟨2024, 1, 31⟩ 1 2024 2 (by decide) (by decide)
    (by decide) (by decide) (by decide) (by decide)

/-- Claim C5 counterexample to the unamended statement ("for every
calendar date d and every integer n"): one month before 0001-01-15 would
be 0000-12-15, which `datetime.date` cannot represent; the code raises
`ValueError` and returns no date at all, rather than "the date n months
after d". -/
theorem claim_C5_counterexample : add_months ⟨1, 1, 15⟩ (-1) = none := by decide

/-- Claim C6: for all valid dates `d` and integers `n`, if `add_months d n`
returns a date `d2` whose day-of-month is preserved (no clamping), then
`add_months d2 (-n)` returns `d` again.  (When the first application
preserves the day, the reverse application cannot clamp either, since
`d`'s day fits its own month.) -/
theorem claim_C6_roundtrip (d d2 : Date) (n : Int) (hd : d.Valid)
    (h1 : add_months d n = some d2) (hday : d2.day = d.day) :
    add_months d2 (-n) = some d := by
  rw [add_months_eq, pyDate_eq_some] at h1
  obtain ⟨hy1, hy2, hm1, hm2, hdy1, hdy2, rfl⟩ := h1
  have hres := add_months_char
    ⟨((d.year : Int) + ((d.month : Int) - 1 + n) / 12).toNat,
      (((d.month : Int) - 1 + n) % 12 + 1).toNat,
      (min (d.day : Int)
        (daysInMonthP ((d.year : Int) + ((d.month : Int) - 1 + n) / 12)
          (((d.month : Int) - 1 + n) % 12 + 1))).toNat⟩
    (-n) (d.year : Int) (d.month : Int)
    (pyDate_valid (by rw [pyDate_eq_some]; exact ⟨hy1, hy2, hm1, hm2, hdy1, hdy2, rfl⟩))
    (by have := hd.2.2.1; omega) (by have := hd.2.2.2.1; omega)
    (by dsimp only; omega) (by have := hd.1; omega) (by have := hd.2.1; omega)
  rw [hres]
  have hcap := hd.2.2.2.2.2
  have hday1 := hd.2.2.2.2.1
  have hdd : (⟨((d.year : Int)).toNat, ((d.month : Int)).toNat,
      (min ((((min (d.day : Int)
        (daysInMonthP ((d.year : Int) + ((d.month : Int) - 1 + n) / 12)
          (((d.month : Int) - 1 + n) % 12 + 1))).toNat : Nat) : Int))
        (daysInMonthP (d.year : Int) (d.month : Int))).toNat⟩ : Date) = d := by
    have hdaymin : (min (d.day : Int)
        (daysInMonthP ((d.year : Int) + ((d.month : Int) - 1 + n) / 12)
          (((d.month : Int) - 1 + n) % 12 + 1))).toNat = d.day := hday
    cases d with
    | mk y m dy =>
      simp only [Date.mk.injEq]
      dsimp only at hdaymin hcap hday1
      refine ⟨by omega, by omega, by omega⟩
  rw [hdd]

/-- Claim C6 witness: 2024-03-15 plus 5 months is 2024-08-15 (day
preserved), and subtracting 5 months returns to 2024-03-15. -/
theorem claim_C6_witness : add_months ⟨2024, 8, 15⟩ (-5) = some ⟨2024, 3, 15⟩ :=
  claim_C6_roundtrip ⟨2024, 3, 15⟩ ⟨2024, 8, 15⟩ 5 (by decide) (by decide) rfl

/-! ### Claim C7: month_key -/

theorem digitChar_inj {a b : Nat} (ha : a < 10) (hb : b < 10) :
    digitChar a = digitChar b → a = b := by
  interval_cases a <;> interval_cases b <;> decide

/-- Claim C7: two valid dates have the same `month_key` exactly when they
lie in the same calendar month (same year and same month); in particular
the key is stable within a month and differs across month boundaries. -/
theorem claim_C7_month_key_stable (d1 d2 : Date) (h1 : d1.Valid) (h2 : d2.Valid) :
    month_key d1 = month_key d2 ↔ (d1.year = d2.year ∧ d1.month = d2.month) := by
  constructor
  · intro h
    unfold month_key at h
    have hl := congrArg String.data h
    dsimp only at hl
    simp only [List.cons.injEq, and_true] at hl
    obtain ⟨e1, e2, e3, e4, _, e5, e6⟩ := hl
    have hy1 := h1.2.1
    have hy2 := h2.2.1
    have hm1 := h1.2.2.2.1
    have hm2 := h2.2.2.2.1
    have q1 := digitChar_inj (by omega) (by omega) e1
    have q2 := digitChar_inj (by omega) (by omega) e2
    have q3 := digitChar_inj (by omega) (by omega) e3
    have q4 := digitChar_inj (by omega) (by omega) e4
    have q5 := digitChar_inj (by omega) (by omega) e5
    have q6 := digitChar_inj (by omega) (by omega) e6
    constructor <;> omega
  · rintro ⟨hy, hm⟩
    unfold month_key
    rw [hy, hm]

/-- Claim C7 witness: 2024-03-05 and 2024-03-28 share a key, and the claim
instance states the key equivalence for them. -/
theorem claim_C7_witness :
    month_key ⟨2024, 3, 5⟩ = month_key ⟨2024, 3, 28⟩ ↔
      ((2024 : Nat) = 2024 ∧ (3 : Nat) = 3) :=
  claim_C7_month_key_stable ⟨2024, 3, 5⟩ ⟨2024, 3, 28⟩ (by decide) (by decide)

/-! ### Claim C9: category deletion -/

/-- Source `delete_category(name)` (src/app.py lines 233-237):
`DELETE FROM categories WHERE name=?` — it touches the categories table
only. -/
def delete_category (st : Store) (name : String) : Store :=
  { st with categories := st.categories.filter (fun c => !(c == name)) }

/-- Claim C9: `delete_category c` removes only the label `c` from the
managed category set; every transaction row (and every budget and
recurring row) is left completely unchanged, including transactions whose
category text equals `c`. -/
theorem claim_C9_delete_category_frame (st : Store) (c : String) :
    (delete_category st c).transactions = st.transactions ∧
    (delete_category st c).budgets = st.budgets ∧
    (delete_category st c).recurring = st.recurring ∧
    (delete_category st c).categories = st.categories.filter (fun x => !(x == c)) :=
  ⟨rfl, rfl, rfl, rfl⟩

/-! ### Claim C10: budget upsert -/

/-- Source `set_budget(month, category, amount)` (src/app.py lines 240-246):
`INSERT INTO budgets(month, category, amount) VALUES(?,?,?)
 ON CONFLICT(month, category) DO UPDATE SET amount=excluded.amount`.
The insert conflicts exactly when a row with the same `(month, category)`
pair exists (the table declares `UNIQUE(month, category)`), in which case
that row's amount is overwritten in place; otherwise a fresh row is
appended with the next `AUTOINCREMENT` id. -/
def set_budget (st : Store) (month category : String) (amount : ℚ) : Store :=
  if st.budgets.any (fun b => b.month == month && b.category == category) then
    { st with budgets := st.budgets.map fun b =>
        if b.month == month && b.category == category then
          { b with amount := amount } else b }
  else
    { st with
      budgets := st.budgets ++
        [{ id := st.nextBudgetId, month := month, category := category,
           amount := amount }],
      nextBudgetId := st.nextBudgetId + 1 }

/-- The `UNIQUE(month, category)` table invariant: at most one budget row
per (month, category) pair. -/
def budgetsUnique (st : Store) : Prop :=
  st.budgets.Pairwise fun a b => ¬(a.month = b.month ∧ a.category = b.category)

instance (st : Store) : Decidable (budgetsUnique st) := by
  unfold budgetsUnique; infer_instance

theorem set_budget_preserves_unique (st : Store) (m c : String) (a : ℚ)
    (h : budgetsUnique st) : budgetsUnique (set_budget st m c a) := by
  unfold set_budget budgetsUnique at *
  split
  case isTrue hany =>
    dsimp only
    rw [List.pairwise_map]
    refine h.imp ?_
    intro x y hxy hc
    apply hxy
    obtain ⟨hcm, hcc⟩ := hc
    constructor
    · revert hcm
      split <;> (split <;> exact id)
    · revert hcc
      split <;> (split <;> exact id)
  case isFalse hany =>
    dsimp only
    rw [List.pairwise_append]
    refine ⟨h, List.pairwise_singleton _ _, ?_⟩
    intro x hx y hy
    simp only [List.mem_singleton] at hy
    subst hy
    intro hc
    apply hany
    apply List.any_eq_true.mpr
    refine ⟨x, hx, ?_⟩
    simp only [Bool.and_eq_true, beq_iff_eq]
    exact ⟨hc.1, hc.2⟩

theorem budget_filter_singleton {l : List Budget}
    (hp : l.Pairwise fun a b => ¬(a.month = b.month ∧ a.category = b.category))
    (m c : String) (b0 : Budget) (hb0 : b0 ∈ l)
    (hkey : (b0.month == m && b0.category == c) = true) :
    l.filter (fun b => b.month == m && b.category == c) = [b0] := by
  induction l with
  | nil => cases hb0
  | cons x xs ih =>
    simp only [Bool.and_eq_true, beq_iff_eq] at hkey
    rcases List.mem_cons.mp hb0 with rfl | hmem
    · rw [List.filter_cons_of_pos (by simp [hkey.1, hkey.2])]
      have hnil : xs.filter (fun b => b.month == m && b.category == c) = [] := by
        rw [List.filter_eq_nil_iff]
        intro y hy hyk
        simp only [Bool.and_eq_true, beq_iff_eq] at hyk
        exact (List.pairwise_cons.mp hp).1 y hy
          ⟨by rw [hkey.1, hyk.1], by rw [hkey.2, hyk.2]⟩
      rw [hnil]
    · have hx : ¬((x.month == m && x.category == c) = true) := by
        intro hxk
        simp only [Bool.and_eq_true, beq_iff_eq] at hxk
        exact (List.pairwise_cons.mp hp).1 b0 hmem
          ⟨by rw [hxk.1, hkey.1], by rw [hxk.2, hkey.2]⟩
      rw [List.filter_cons_of_neg (by simpa using hx)]
      exact ih (List.pairwise_cons.mp hp).2 hmem

theorem set_budget_key_rows (st : Store) (m c : String) (a : ℚ)
    (h : budgetsUnique st) :
    ((set_budget st m c a).budgets.filter
        (fun b => b.month == m && b.category == c)).map Budget.amount = [a] := by
  unfold set_budget budgetsUnique at *
  by_cases hany : st.budgets.any (fun b => b.month == m && b.category == c) = true
  · rw [if_pos hany]
    dsimp only
    rw [List.filter_map]
    have hpf : ((fun b : Budget => b.month == m && b.category == c) ∘
        (fun b : Budget => if b.month == m && b.category == c then
          { b with amount := a } else b)) =
        (fun b : Budget => b.month == m && b.category == c) := by
      funext b
      simp only [Function.comp]
      by_cases hb : (b.month == m && b.category == c) = true
      · rw [if_pos hb]
      · rw [if_neg hb]
    rw [hpf]
    obtain ⟨b0, hb0, hkey⟩ := List.any_eq_true.mp hany
    rw [budget_filter_singleton h m c b0 hb0 hkey]
    simp only [Bool.and_eq_true, beq_iff_eq] at hkey
    simp [hkey.1, hkey.2]
  · rw [if_neg hany]
    dsimp only
    rw [List.filter_append]
    have hnil : st.budgets.filter (fun b => b.month == m && b.category == c) = [] := by
      rw [List.filter_eq_nil_iff]
      intro b hb hk
      exact hany (List.any_eq_true.mpr ⟨b, hb, hk⟩)
    rw [hnil]
    simp

theorem budgetsUnique_foldl (calls : List (String × String × ℚ)) :
    ∀ st, budgetsUnique st →
      budgetsUnique (calls.foldl (fun s t => set_budget s t.1 t.2.1 t.2.2) st) := by
  induction calls with
  | nil => intro st h; exact h
  | cons t ts ih =>
    intro st h
    exact ih _ (set_budget_preserves_unique st t.1 t.2.1 t.2.2 h)

/-- Claim C10: starting from a store satisfying the `UNIQUE(month,
category)` invariant, any sequence of `set_budget` calls preserves "at
most one budget row per (month, category)"; and setting the same
(month, category) twice with amounts `a1` then `a2` leaves exactly one row
for that pair, holding the later amount `a2`. -/
theorem claim_C10_budget_upsert (st : Store) (calls : List (String × String × ℚ))
    (m c : String) (a1 a2 : ℚ) (h : budgetsUnique st) :
    budgetsUnique (calls.foldl (fun s t => set_budget s t.1 t.2.1 t.2.2) st) ∧
    ((set_budget (set_budget st m c a1) m c a2).budgets.filter
        (fun b => b.month == m && b.category == c)).map Budget.amount = [a2] :=
  ⟨budgetsUnique_foldl calls st h,
    set_budget_key_rows _ m c a2 (set_budget_preserves_unique st m c a1 h)⟩

/-- Claim C10 witness: the invariant and the double-upsert result at a
concrete store (month "2024-03", category "Food", amounts 1000 then 1500). -/
theorem claim_C10_witness :
    budgetsUnique
      ([(("2024-03", "Food", (1000 : ℚ)))].foldl
        (fun s t => set_budget s t.1 t.2.1 t.2.2)
        { transactions := [], categories := [], budgets := [], recurring := [],
          nextTxnId := 1, nextBudgetId := 1 }) ∧
    ((set_budget (set_budget
          { transactions := [], categories := [], budgets := [], recurring := [],
            nextTxnId := 1, nextBudgetId := 1 } "2024-03" "Food" 1000)
          "2024-03" "Food" 1500).budgets.filter
        (fun b => b.month == "2024-03" && b.category == "Food")).map Budget.amount
      = [1500] :=
  claim_C10_budget_upsert
    { transactions := [], categories := [], budgets := [], recurring := [],
      nextTxnId := 1, nextBudgetId := 1 }
    [("2024-03", "Food", (1000 : ℚ))] "2024-03" "Food" 1000 1500 (by decide)

/-! ### Claim C8: the filtered transaction query

`df_transactions` (src/app.py lines 185-218) builds a WHERE clause from
the filters dict and runs it through SQLite.  The free-text search adds
`(description LIKE ? OR account LIKE ?)` with parameter `f"%{q}%"` for
both fields.  SQLite's default `LIKE` is modelled by `likeMatch`:
`%` matches any sequence, `_` matches exactly one character, and ordinary
characters compare ASCII-case-insensitively.  `LIKE` applied to a NULL
description is NULL, i.e. the row does not pass on that disjunct. -/

/-- ASCII lower-casing, the case folding SQLite's default `LIKE` uses. -/
def asciiLower (c : Char) : Char :=
  if 'A' ≤ c && c ≤ 'Z' then Char.ofNat (c.toNat + 32) else c

/-- SQLite `LIKE` pattern matching with structural fuel; any fuel above
`p.length + s.length` gives the same answer (`likeMatchF_congr`), so
`likeMatch` below computes the genuine unbounded recursion. -/
def likeMatchF : Nat → List Char → List Char → Bool
  | 0, _, _ => false
  | _ + 1, [], s => s.isEmpty
  | fuel + 1, p :: ps, s =>
    if p = '%' then
      likeMatchF fuel ps s ||
        (match s with
         | [] => false
         | _ :: s2 => likeMatchF fuel (p :: ps) s2)
    else
      match s with
      | [] => false
      | x :: s2 =>
        (if p = '_' then true else asciiLower p == asciiLower x) &&
          likeMatchF fuel ps s2

/-- SQLite `pattern LIKE` applied to a subject string. -/
def likeMatch (p s : List Char) : Bool :=
  likeMatchF (p.length + s.length + 1) p s

theorem likeMatchF_congr :
    ∀ f1 f2 (p s : List Char), p.length + s.length < f1 →
      p.length + s.length < f2 → likeMatchF f1 p s = likeMatchF f2 p s := by
  intro f1
  induction f1 with
  | zero => intro f2 p s h1 h2; omega
  | succ f1 ih =>
    intro f2 p s h1 h2
    cases f2 with
    | zero => omega
    | succ f2 =>
      cases p with
      | nil => rfl
      | cons p ps =>
        simp only [List.length_cons] at h1 h2
        by_cases hp : p = '%'
        · subst hp
          cases s with
          | nil =>
            simp only [likeMatchF, if_pos rfl, if_true]
            rw [ih f2 ps [] (by simp; omega) (by simp; omega)]
          | cons x s2 =>
            simp only [List.length_cons] at h1 h2
            simp only [likeMatchF, if_pos rfl, if_true]
            rw [ih f2 ps (x :: s2) (by simp; omega) (by simp; omega),
              ih f2 ('%' :: ps) s2 (by simp; omega) (by simp; omega)]
        · cases s with
          | nil => simp only [likeMatchF, if_neg hp]
          | cons x s2 =>
            simp only [List.length_cons] at h1 h2
            simp only [likeMatchF, if_neg hp]
            rw [ih f2 ps s2 (by omega) (by omega)]

theorem likeMatchF_eq_likeMatch {fuel : Nat} {p s : List Char}
    (h : p.length + s.length < fuel) : likeMatchF fuel p s = likeMatch p s :=
  likeMatchF_congr fuel (p.length + s.length + 1) p s h (by omega)

/-- The filters dict passed to `df_transactions`.  `none` models both an
absent key and a Python-falsy value (`if filters.get(...)` skips those). -/
structure Filters where
  date_from : Option Date := none
  date_to : Option Date := none
  ttype : Option String := none
  category : Option String := none
  min_amt : Option ℚ := none
  max_amt : Option ℚ := none
  q : Option String := none

/-- The WHERE clause of `df_transactions` applied to one row, condition by
condition in source order.  Stored ISO date strings compare exactly like
the dates themselves, so `date >= ?` / `date <= ?` become `dateLe`; the
amount bounds are the SQL `amount >= ?` / `amount <= ?` (inclusive); the
free-text search is `(description LIKE '%q%' OR account LIKE '%q%')`, with
a NULL description failing its `LIKE`. -/
def txnPass (f : Filters) (t : Txn) : Bool :=
  (match f.date_from with | none => true | some a => dateLe a t.date) &&
  (match f.date_to with | none => true | some b => dateLe t.date b) &&
  (match f.ttype with
   | none => true
   | some ty => if ty = "All" then true else t.ttype == ty) &&
  (match f.category with
   | none => true
   | some ca => if ca = "All" then true else t.category == ca) &&
  (match f.min_amt with | none => true | some lo => decide (lo ≤ t.amount)) &&
  (match f.max_amt with | none => true | some hi => decide (t.amount ≤ hi)) &&
  (match f.q with
   | none => true
   | some q =>
     (match t.description with
      | none => false
      | some d => likeMatch ('%' :: (q.data ++ ['%'])) d.data) ||
     likeMatch ('%' :: (q.data ++ ['%'])) t.account.data)

/-- `ORDER BY date DESC, id DESC`: row `a` sorts before row `b`. -/
def txnOrder (a b : Txn) : Bool :=
  if a.date = b.date then decide (b.id ≤ a.id) else dateLe b.date a.date

/-- Ordered insertion used to model the SQL ORDER BY. -/
def insertTxn (t : Txn) : List Txn → List Txn
  | [] => [t]
  | u :: us => if txnOrder t u then t :: u :: us else u :: insertTxn t us

/-- Sort rows by `ORDER BY date DESC, id DESC` (insertion sort). -/
def sortTxns (l : List Txn) : List Txn := l.foldr insertTxn []

/-- Source `df_transactions(filters)`: the stored rows that satisfy the
WHERE clause, ordered by date descending then id descending. -/
def df_transactions (f : Filters) (rows : List Txn) : List Txn :=
  sortTxns (rows.filter (txnPass f))

theorem mem_insertTxn {t x : Txn} {l : List Txn} :
    t ∈ insertTxn x l ↔ (t = x ∨ t ∈ l) := by
  induction l with
  | nil => simp [insertTxn]
  | cons u us ih =>
    simp only [insertTxn]
    split
    · simp
    · simp only [List.mem_cons, ih]
      tauto

theorem mem_sortTxns {t : Txn} {l : List Txn} : t ∈ sortTxns l ↔ t ∈ l := by
  induction l with
  | nil => simp [sortTxns]
  | cons x xs ih =>
    show t ∈ insertTxn x (sortTxns xs) ↔ _
    rw [mem_insertTxn]
    simp [ih]

theorem likeMatchF_pct_iff :
    ∀ (s : List Char) (fuel : Nat) (ps : List Char),
      ('%' :: ps).length + s.length < fuel →
      (likeMatchF fuel ('%' :: ps) s = true ↔
        ∃ t, t <:+ s ∧ likeMatch ps t = true) := by
  intro s
  induction s with
  | nil =>
    intro fuel ps h
    simp only [List.length_cons, List.length_nil] at h
    cases fuel with
    | zero => omega
    | succ f =>
      simp only [likeMatchF, if_pos rfl, if_true, Bool.or_false]
      rw [likeMatchF_eq_likeMatch (by simp; omega)]
      constructor
      · intro hm
        exact ⟨[], List.suffix_refl [], hm⟩
      · rintro ⟨t, ht, hm⟩
        rw [List.suffix_nil.mp ht] at hm
        exact hm
  | cons x s2 ih =>
    intro fuel ps h
    simp only [List.length_cons] at h
    cases fuel with
    | zero => omega
    | succ f =>
      simp only [likeMatchF, if_pos rfl, if_true]
      rw [Bool.or_eq_true,
        likeMatchF_eq_likeMatch (by simp; omega)]
      constructor
      · rintro (hm | hm)
        · exact ⟨x :: s2, List.suffix_refl _, hm⟩
        · obtain ⟨t, ht, hmt⟩ := (ih f ps (by simp; omega)).mp hm
          exact ⟨t, List.suffix_cons_iff.mpr (Or.inr ht), hmt⟩
      · rintro ⟨t, ht, hm⟩
        rcases List.suffix_cons_iff.mp ht with rfl | ht2
        · exact Or.inl hm
        · exact Or.inr ((ih f ps (by simp; omega)).mpr ⟨t, ht2, hm⟩)

theorem likeMatchF_plain_iff :
    ∀ (q : List Char), (∀ ch ∈ q, ch ≠ '%' ∧ ch ≠ '_') →
      ∀ (s : List Char) (fuel : Nat), (q ++ ['%']).length + s.length < fuel →
      (likeMatchF fuel (q ++ ['%']) s = true ↔
        (q.map asciiLower) <+: (s.map asciiLower)) := by
  intro q
  induction q with
  | nil =>
    intro _ s fuel h
    simp only [List.nil_append, List.map_nil]
    constructor
    · intro _
      exact List.nil_prefix
    · intro _
      exact (likeMatchF_pct_iff s fuel [] (by simpa using h)).mpr
        ⟨[], ⟨s, by simp⟩, rfl⟩
  | cons c q2 ih =>
    intro hq s fuel h
    have hc := hq c (by simp)
    simp only [List.cons_append, List.length_cons] at h ⊢
    cases fuel with
    | zero => omega
    | succ f =>
      cases s with
      | nil =>
        simp only [likeMatchF, if_neg hc.1]
        simp [List.prefix_nil]
      | cons x s2 =>
        simp only [List.length_cons] at h
        simp only [likeMatchF, if_neg hc.1, if_neg hc.2]
        rw [Bool.and_eq_true, beq_iff_eq,
          ih (fun ch hch => hq ch (List.mem_cons_of_mem _ hch)) s2 f
            (by simp at h ⊢; omega)]
        simp only [List.map_cons]
        rw [List.cons_prefix_cons]

theorem likeMatch_infix_iff (q s : List Char)
    (hq : ∀ ch ∈ q, ch ≠ '%' ∧ ch ≠ '_') :
    likeMatch ('%' :: (q ++ ['%'])) s = true ↔
      (q.map asciiLower) <:+: (s.map asciiLower) := by
  unfold likeMatch
  rw [likeMatchF_pct_iff s _ (q ++ ['%']) (by omega)]
  constructor
  · rintro ⟨t, ⟨u, hu⟩, hm⟩
    obtain ⟨v, hv⟩ := (likeMatchF_plain_iff q hq t
      ((q ++ ['%']).length + t.length + 1) (by omega)).mp hm
    refine ⟨u.map asciiLower, v, ?_⟩
    rw [List.append_assoc, hv, ← List.map_append, hu]
  · rintro ⟨u, v, huv⟩
    refine ⟨s.drop u.length, List.drop_suffix _ _, ?_⟩
    apply (likeMatchF_plain_iff q hq _ _ (by omega)).mpr
    refine ⟨v, ?_⟩
    rw [List.map_drop, ← huv, List.append_assoc, List.drop_left]

/-- The claim's "contains q as a (ASCII-)case-insensitive substring" for a
text field. -/
def containsCI (q s : String) : Prop :=
  (q.data.map asciiLower) <:+: (s.data.map asciiLower)

instance (q s : String) : Decidable (containsCI q s) := by
  unfold containsCI
  infer_instance

/-- A nullable description contains `q` only when it is non-NULL and the
text contains `q`. -/
def descContainsCI (d : Option String) (q : String) : Prop :=
  match d with
  | none => False
  | some s => containsCI q s

instance (d : Option String) (q : String) : Decidable (descContainsCI d q) := by
  cases d with
  | none => exact isFalse fun h => h
  | some s => exact inferInstanceAs (Decidable (containsCI q s))

theorem txnPass_q (q : String) (t : Txn) :
    (txnPass { q := some q } t = true) ↔
      ((match t.description with
        | none => False
        | some d => likeMatch ('%' :: (q.data ++ ['%'])) d.data = true) ∨
       likeMatch ('%' :: (q.data ++ ['%'])) t.account.data = true) := by
  cases hd : t.description with
  | none => simp [txnPass, hd]
  | some d => simp [txnPass, hd]

/-- Transaction of amount 50 for the claim's amount-filter example. -/
def txn50 : Txn :=
  { id := 1, date := ⟨2024, 3, 1⟩, ttype := "Expense", category := "Food",
    description := some "small", amount := 50, account := "Cash" }

/-- Transaction of amount 150 for the claim's amount-filter example. -/
def txn150 : Txn :=
  { id := 2, date := ⟨2024, 3, 2⟩, ttype := "Expense", category := "Food",
    description := some "medium", amount := 150, account := "Cash" }

/-- Transaction of amount 300 for the claim's amount-filter example. -/
def txn300 : Txn :=
  { id := 3, date := ⟨2024, 3, 3⟩, ttype := "Expense", category := "Food",
    description := some "large", amount := 300, account := "Cash" }

/-- Claim C8 (amended): for every search string `q` containing no SQL
`LIKE` wildcard (`%` or `_`), the filtered query with free-text filter `q`
returns exactly the stored transactions whose description or whose account
contains `q` as an (ASCII-)case-insensitive substring, the two field
conditions OR-combined (a NULL description contains nothing); and with
transactions of amounts 50, 150, 300 stored, querying with min_amt = 100
and max_amt = 200 (both bounds inclusive) returns only the amount-150
transaction.  The wildcard restriction is forced by
`claim_C8_counterexample`: `q` is interpolated into the `LIKE` pattern
unescaped, so wildcard characters in `q` match structurally rather than
literally. -/
theorem claim_C8_filtered_query (q : String) (rows : List Txn) (t : Txn)
    (hq : ∀ ch ∈ q.data, ch ≠ '%' ∧ ch ≠ '_') :
    (t ∈ df_transactions { q := some q } rows ↔
      (t ∈ rows ∧ (descContainsCI t.description q ∨ containsCI q t.account))) ∧
    df_transactions { min_amt := some 100, max_amt := some 200 }
        [txn50, txn150, txn300] = [txn150] := by
  refine ⟨?_, by decide⟩
  unfold df_transactions
  rw [mem_sortTxns, List.mem_filter]
  apply and_congr Iff.rfl
  rw [txnPass_q]
  cases hd : t.description with
  | none =>
    simp only [hd, descContainsCI, containsCI]
    rw [likeMatch_infix_iff q.data t.account.data hq]
  | some d =>
    simp only [hd, descContainsCI, containsCI]
    rw [likeMatch_infix_iff q.data d.data hq,
      likeMatch_infix_iff q.data t.account.data hq]

/-- Transaction used by the C8 witness. -/
def txnC8w : Txn :=
  { id := 1, date := ⟨2024, 2, 2⟩, ttype := "Expense", category := "Food",
    description := some "Groceries at BigBazaar", amount := 250,
    account := "Cash" }

/-- Claim C8 witness: the amended claim at the wildcard-free search string
"groc" (which matches the description "Groceries at BigBazaar" only
case-insensitively) and the concrete amount-filter store. -/
theorem claim_C8_witness :
    (txnC8w ∈ df_transactions { q := some "groc" } [txnC8w] ↔
      (txnC8w ∈ [txnC8w] ∧
        (descContainsCI txnC8w.description "groc" ∨
          containsCI "groc" txnC8w.account))) ∧
    df_transactions { min_amt := some 100, max_amt := some 200 }
        [txn50, txn150, txn300] = [txn150] :=
  claim_C8_filtered_query "groc" [txnC8w] txnC8w (by decide)

/-- Transaction used by the C8 counterexample. -/
def txnC8x : Txn :=
  { id := 1, date := ⟨2024, 1, 1⟩, ttype := "Expense", category := "Misc",
    description := some "a", amount := 1, account := "x" }

/-- Claim C8 counterexample to the unamended statement ("for every
free-text search string q"): with q = "_" the query returns a transaction
whose description "a" and account "x" do not contain "_" at all — the
underscore reaches SQLite's LIKE unescaped and matches any single
character. -/
theorem claim_C8_counterexample :
    txnC8x ∈ df_transactions { q := some "_" } [txnC8x] ∧
    ¬(descContainsCI txnC8x.description "_" ∨ containsCI "_" txnC8x.account) := by
  decide

